import Mathlib

/-!
Verification of the M3 binary codec (m3.py) of the startcraft-unity3d
repository.  Each definition below is a shallow embedding of a function or
class of m3.py; the theorems settle the frozen claims C1..C10 about the
natural-language specification.
-/

namespace M3

/-- Embedding of `increaseToValidSectionSize` (m3.py lines 28-35): rounds a
byte count up to the next multiple of the block size 16. -/
def increaseToValidSectionSize (size : Nat) : Nat :=
  let blockSize := 16
  let incompleteBlockBytes := size % blockSize
  if incompleteBlockBytes ≠ 0 then
    let missingBytesToCompleteBlock := blockSize - incompleteBlockBytes
    size + missingBytesToCompleteBlock
  else
    size

/-- Embedding of `Section.determineFieldRawBytes` (m3.py lines 47-59).
`minRawBytes` stands for the result of `self.determineRawBytesWithData()`
and `required` for `self.bytesRequiredForContent()`; both are opaque
sub-computations of the section's structure description.  The method raises
when the lengths disagree, otherwise pads the bytes with `0xaa` up to the
next multiple of 16. -/
def determineFieldRawBytes (minRawBytes : List Nat) (required : Nat) :
    Except String (List Nat) :=
  if minRawBytes.length ≠ required then
    Except.error "Section size calculation failed"
  else
    let sectionSize := increaseToValidSectionSize minRawBytes.length
    if minRawBytes.length = sectionSize then
      Except.ok minRawBytes
    else
      Except.ok (minRawBytes ++ List.replicate (sectionSize - minRawBytes.length) 0xaa)

/-- Embedding of `TagField.writeToBuffer` (m3.py lines 318-324): a 4-character
tag is stored with its bytes reversed; any other tag is stored as characters
2,1,0 followed by a NUL byte (Python indexes `s[2]`, `s[1]`, `s[0]`, so a
string of fewer than 3 characters raises, modelled by `none`). -/
def tagFieldWrite (s : String) : Option (List Nat) :=
  match s.data.map Char.toNat with
  | [c0, c1, c2, c3] => some [c3, c2, c1, c0]
  | c0 :: c1 :: c2 :: _ => some [c2, c1, c0, 0]
  | _ => none

/-- Embedding of `TagField.readFromBuffer` (m3.py lines 309-316): reads four
bytes; if the last one is zero the tag is the 3-character string of bytes
2,1,0, otherwise the 4-character string of bytes 3,2,1,0.  `none` models a
buffer that does not hold four bytes. -/
def tagFieldRead (b : List Nat) : Option String :=
  match b with
  | [b0, b1, b2, b3] =>
    if b3 = 0 then
      some (String.mk [Char.ofNat b2, Char.ofNat b1, Char.ofNat b0])
    else
      some (String.mk [Char.ofNat b3, Char.ofNat b2, Char.ofNat b1, Char.ofNat b0])
  | _ => none

/-- Embedding of Python's built-in `round` (round half to even), the
rounding used by `Fixed8Field.writeToBuffer`. -/
def pythonRound (q : ℚ) : Int :=
  if q - Int.floor q < 1/2 then Int.floor q
  else if q - Int.floor q = 1/2 then
    (if Int.floor q % 2 = 0 then Int.floor q else Int.floor q + 1)
  else Int.floor q + 1

/-- Embedding of the decode arithmetic of `Fixed8Field.readFromBuffer`
(m3.py line 616): `(intValue / 255.0 * 2.0) - 1`.  Real arithmetic is
modelled exactly over ℚ; at every byte named by the claims the Python
float computation is either exact or agrees within the claimed tolerance. -/
def fixed8Decode (intValue : Nat) : ℚ :=
  (intValue : ℚ) / 255 * 2 - 1

/-- Embedding of the encode arithmetic of `Fixed8Field.writeToBuffer`
(m3.py line 626): `round((floatValue + 1) / 2.0 * 255.0)`. -/
def fixed8Encode (floatValue : ℚ) : Int :=
  pythonRound ((floatValue + 1) / 2 * 255)

/-- Owner state for the named-bit operations: maps each field name to the
integer value currently stored in that field of the Python object
(`getattr`/`setattr`). -/
structure BitOwner where
  fieldValues : String → Nat

/-- The data of an `IntField` relevant to named bits (m3.py lines 571-598):
the field name and its bit-name to bit-mask map. -/
structure IntFieldModel where
  fieldName : String
  bitMaskMap : List (String × Nat)

/-- Embedding of `IntField.getNamedBit` (m3.py lines 583-586); `none`
models the `KeyError` raised on an unknown bit name. -/
def getNamedBit (field : IntFieldModel) (owner : BitOwner) (bitName : String) :
    Option Bool :=
  (field.bitMaskMap.lookup bitName).map fun mask =>
    decide (owner.fieldValues field.fieldName &&& mask ≠ 0)

/-- Embedding of `IntField.setNamedBit` (m3.py lines 588-595): setting ORs
the mask in; clearing XORs the mask out, but only when some masked bit is
currently set. -/
def setNamedBit (field : IntFieldModel) (owner : BitOwner) (bitName : String)
    (value : Bool) : Option BitOwner :=
  (field.bitMaskMap.lookup bitName).map fun mask =>
    let intValue := owner.fieldValues field.fieldName
    if value then
      ⟨fun n => if n = field.fieldName then intValue ||| mask else owner.fieldValues n⟩
    else if intValue &&& mask ≠ 0 then
      ⟨fun n => if n = field.fieldName then intValue ^^^ mask else owner.fieldValues n⟩
    else
      owner

/-- A field definition as far as the size bookkeeping of the schema is
concerned: its name, byte size, and optional since and till version bounds
(class `Field` and its subclasses, m3.py lines 289-294 together with the
per-variant `size` attributes). -/
structure FieldDef where
  name : String
  size : Nat
  sinceVersion : Option Nat
  tillVersion : Option Nat
deriving DecidableEq

/-- Embedding of the field-inclusion test inside `M3StructureHistory.getVersion`
(m3.py lines 93-100): a field is included unless the requested version is
below its since-version or above its till-version. -/
def includeField (version : Nat) (field : FieldDef) : Bool :=
  (match field.sinceVersion with
   | some sinceVersion => decide (sinceVersion ≤ version)
   | none => true) &&
  (match field.tillVersion with
   | some tillVersion => decide (version ≤ tillVersion)
   | none => true)

/-- The data of an `M3StructureDescription` (m3.py lines 126-147): name,
version, the included fields and the byte size declared by the schema. -/
structure M3StructureDescriptionModel where
  structureName : String
  structureVersion : Nat
  fields : List FieldDef
  size : Nat
deriving DecidableEq

/-- Embedding of `M3StructureDescription.__init__` (m3.py lines 128-147):
construction validates the specified size against the sum of the field
sizes and raises on a mismatch. -/
def mkM3StructureDescription (structureName : String) (structureVersion : Nat)
    (fields : List FieldDef) (specifiedSize : Nat) :
    Except String M3StructureDescriptionModel :=
  let calculatedSize := (fields.map (fun f => f.size)).sum
  if calculatedSize ≠ specifiedSize then
    Except.error "Size mismatch"
  else
    Except.ok ⟨structureName, structureVersion, fields, specifiedSize⟩

/-- The data of an `M3StructureHistory` (m3.py lines 79-87): structure name,
the version-to-size map of the schema, all fields ever declared, and the
memoisation cache `versionToStructureDescriptionMap` (association lists
model the Python dicts). -/
structure M3StructureHistoryModel where
  name : String
  versionToSizeMap : List (Nat × Nat)
  allFields : List FieldDef
  versionToStructureDescriptionMap : List (Nat × M3StructureDescriptionModel)

/-- Embedding of `M3StructureHistory.getVersion` (m3.py lines 89-106):
consult the cache; otherwise filter the fields by version, return `none`
when the version has no declared size, and otherwise construct (and cache)
the structure description, propagating its size-mismatch error. -/
def getVersion (history : M3StructureHistoryModel) (version : Nat) :
    Except String (Option M3StructureDescriptionModel × M3StructureHistoryModel) :=
  match history.versionToStructureDescriptionMap.lookup version with
  | some structureDescription => Except.ok (some structureDescription, history)
  | none =>
    let usedFields := history.allFields.filter (includeField version)
    match history.versionToSizeMap.lookup version with
    | none => Except.ok (none, history)
    | some specifiedSize =>
      match mkM3StructureDescription history.name version usedFields specifiedSize with
      | Except.error e => Except.error e
      | Except.ok d =>
        Except.ok (some d,
          { history with versionToStructureDescriptionMap :=
              (version, d) :: history.versionToStructureDescriptionMap })

/-- The in-memory value held by a reference field of an owner structure
once references are resolved.  Python's `None` is `pyNone`, a string is
`pyStr`, a byte array is `pyBytes`, and a list of instances is `pyList`
(element identities are opaque). -/
inductive PyValue where
  | pyNone
  | pyStr (s : String)
  | pyBytes (bs : List Nat)
  | pyList (elems : List Nat)
deriving DecidableEq

/-- Embedding of `M3StructureHistory.createEmptyArray` (m3.py lines 115-121):
for `CHAR` the method returns `None` — "even no terminating character" —
for `U8__` an empty byte array, and an empty list otherwise. -/
def createEmptyArray (name : String) : PyValue :=
  if name = "CHAR" then PyValue.pyNone
  else if name = "U8__" then PyValue.pyBytes []
  else PyValue.pyList []

/-- Embedding of `ReferenceField.setToDefault` (m3.py lines 416-422): the
default is `createEmptyArray` of the referenced structure history, or the
empty list when there is no history.  The history is represented by its
structure name. -/
def referenceSetToDefault (historyOfReferencedStructures : Option String) : PyValue :=
  match historyOfReferencedStructures with
  | some name => createEmptyArray name
  | none => PyValue.pyList []

/-- The on-disk reference record (structure `Reference` of the schema):
entries, section index and flags. -/
structure Reference where
  entries : Nat
  index : Nat
  flags : Nat
deriving DecidableEq

/-- The fields of an `MD34IndexEntry` used by the codec: tag, offset,
repetitions and version. -/
structure IndexEntry where
  tag : String
  offset : Nat
  repetitions : Nat
  version : Nat
deriving DecidableEq

/-- A section as seen by reference resolution: its index entry, its typed
content and its `timesReferenced` counter (class `Section`, m3.py
lines 37-41). -/
structure LoadSection where
  indexEntry : IndexEntry
  content : PyValue
  timesReferenced : Nat
deriving DecidableEq

/-- Embedding of `ReferenceField.resolveIndexReferences` (m3.py lines
351-379).  The referenced structure history is represented by its name.
The result is the new value of the owner's field together with the updated
section list; `Except.error` models the raised exceptions (including the
`IndexError` of `sections[ref.index]`). -/
def resolveIndexReferences (historyOfReferencedStructures : Option String)
    (ref : Reference) (sections : List LoadSection) :
    Except String (PyValue × List LoadSection) :=
  if ref.entries = 0 then
    match historyOfReferencedStructures with
    | none => Except.ok (PyValue.pyList [], sections)
    | some name => Except.ok (createEmptyArray name, sections)
  else
    match sections[ref.index]? with
    | none => Except.error "IndexError: list index out of range"
    | some referencedSection =>
      let sections2 := sections.set ref.index
        { referencedSection with
            timesReferenced := referencedSection.timesReferenced + 1 }
      if referencedSection.indexEntry.repetitions < ref.entries then
        Except.error "references more elements then there actually are"
      else
        match historyOfReferencedStructures with
        | some expectedTagName =>
          if referencedSection.indexEntry.tag ≠ expectedTagName then
            Except.error "reference points to a section with a different tag"
          else
            Except.ok (referencedSection.content, sections2)
        | none => Except.error "field can not be marked as a reference"

/-- A section as created on the save path by the index maker (m3.py lines
1212-1222): its index entry, the identity of the list object it stores,
the list's elements, and the structure description chosen for it. -/
structure SaveSection where
  indexEntry : IndexEntry
  contentId : Nat
  contentData : List Nat
  structureDescription : M3StructureDescriptionModel
deriving DecidableEq

/-- State of an `IndexReferenceSourceAndSectionListMaker` (m3.py lines
1189-1196): the identity-keyed memoisation map, the running byte offset,
the next free section index and the section list. -/
structure IndexMaker where
  objectsIdToIndexReferenceMap : List (Nat × Reference)
  offset : Nat
  nextFreeIndexPosition : Nat
  sections : List SaveSection
deriving DecidableEq

/-- Embedding of `IndexReferenceSourceAndSectionListMaker.getIndexReferenceTo`
(m3.py lines 1198-1228) for list-valued content, the case the claims are
about.  The Python list object is modelled by its identity `objId`
(Python's `id`) together with its elements `objData` (opaque instance
identities), so `structureDescription.countInstances` is `objData.length`.
A `none` description (empty or refTo-less content) gives zero repetitions.
New `Reference` instances carry `flags = 0`, the schema default. -/
def getIndexReferenceTo (maker : IndexMaker) (objId : Nat) (objData : List Nat)
    (structureDescription : Option M3StructureDescriptionModel) :
    Reference × IndexMaker :=
  match maker.objectsIdToIndexReferenceMap.lookup objId with
  | some indexReference => (indexReference, maker)
  | none =>
    let repetitions := match structureDescription with
      | none => 0
      | some _ => objData.length
    let indexReference : Reference :=
      ⟨repetitions, maker.nextFreeIndexPosition, 0⟩
    match structureDescription with
    | some d =>
      if repetitions > 0 then
        let indexEntry : IndexEntry := ⟨d.structureName, maker.offset, repetitions, d.structureVersion⟩
        let newSection : SaveSection := ⟨indexEntry, objId, objData, d⟩
        (indexReference,
          { objectsIdToIndexReferenceMap :=
              (objId, indexReference) :: maker.objectsIdToIndexReferenceMap,
            offset := maker.offset + increaseToValidSectionSize (d.size * repetitions),
            nextFreeIndexPosition := maker.nextFreeIndexPosition + 1,
            sections := maker.sections ++ [newSection] })
      else
        (indexReference, maker)
    | none => (indexReference, maker)

end M3

namespace M3

/-- Helper: arithmetic characterisation of `increaseToValidSectionSize`. -/
theorem increaseToValidSectionSize_spec (n : Nat) :
    n ≤ increaseToValidSectionSize n ∧ increaseToValidSectionSize n % 16 = 0 ∧
    ∀ m, m % 16 = 0 → n ≤ m → increaseToValidSectionSize n ≤ m := by
  have hdef : increaseToValidSectionSize n
      = if n % 16 ≠ 0 then n + (16 - n % 16) else n := rfl
  rw [hdef]
  by_cases hz : n % 16 = 0
  · simp only [hz, ne_eq, not_true_eq_false, if_false]
    exact ⟨le_refl n, trivial, fun m _ hm => hm⟩
  · simp only [ne_eq, hz, not_false_eq_true, if_true]
    refine ⟨by omega, by omega, fun m hm16 hnm => by omega⟩

/-- C3: Every successfully produced section payload has the smallest length
that is a multiple of 16 and at least the byte count required by the content,
and every byte past the content bytes equals 0xAA; the content bytes
themselves are kept unchanged at the front. -/
theorem determineFieldRawBytes_pads (minRawBytes : List Nat) (required : Nat)
    (raw : List Nat) (h : determineFieldRawBytes minRawBytes required = Except.ok raw) :
    raw.length % 16 = 0 ∧ required ≤ raw.length ∧
    (∀ m, m % 16 = 0 → required ≤ m → raw.length ≤ m) ∧
    (∀ i, required ≤ i → i < raw.length → raw[i]? = some 0xaa) ∧
    raw.take required = minRawBytes := by
  have key : minRawBytes.length = required ∧
      raw = minRawBytes ++
        List.replicate (increaseToValidSectionSize minRawBytes.length
          - minRawBytes.length) 0xaa := by
    unfold determineFieldRawBytes at h
    by_cases h1 : minRawBytes.length = required
    · refine ⟨h1, ?_⟩
      rw [if_neg (by simp [h1])] at h
      by_cases h2 : minRawBytes.length = increaseToValidSectionSize minRawBytes.length
      · rw [if_pos h2] at h
        simp only [Except.ok.injEq] at h
        subst h
        rw [← h2]
        simp
      · rw [if_neg h2] at h
        simp only [Except.ok.injEq] at h
        subst h
        rfl
    · rw [if_pos h1] at h
      exact absurd h (by simp)
  obtain ⟨h1, h2⟩ := key
  obtain ⟨hle, hmod, hmin⟩ := increaseToValidSectionSize_spec minRawBytes.length
  have hlenraw : raw.length = increaseToValidSectionSize minRawBytes.length := by
    rw [h2, List.length_append, List.length_replicate]
    omega
  refine ⟨by omega, by omega,
    fun m hm16 hmge => by have := hmin m hm16 (by omega); omega, ?_, ?_⟩
  · intro i hi1 hi2
    rw [h2, List.getElem?_append_right (by omega), List.getElem?_replicate,
      if_pos (by rw [h2, List.length_append, List.length_replicate] at hi2; omega)]
  · rw [h2, ← h1, List.take_left]

/-- Witness for C3: a content requiring 37 bytes produces a 48-byte payload
whose bytes 37..47 all equal 0xAA. -/
theorem determineFieldRawBytes_pads_witness :
    determineFieldRawBytes (List.replicate 37 0) 37
      = Except.ok (List.replicate 37 0 ++ List.replicate 11 0xaa) ∧
    ((List.replicate 37 0 ++ List.replicate 11 0xaa : List Nat).length % 16 = 0 ∧
     37 ≤ (List.replicate 37 0 ++ List.replicate 11 0xaa : List Nat).length ∧
     (∀ m, m % 16 = 0 → 37 ≤ m →
        (List.replicate 37 0 ++ List.replicate 11 0xaa : List Nat).length ≤ m) ∧
     (∀ i, 37 ≤ i → i < (List.replicate 37 0 ++ List.replicate 11 0xaa : List Nat).length →
        (List.replicate 37 0 ++ List.replicate 11 0xaa : List Nat)[i]? = some 0xaa) ∧
     (List.replicate 37 0 ++ List.replicate 11 0xaa : List Nat).take 37
        = List.replicate 37 0) :=
  ⟨by rfl, determineFieldRawBytes_pads (List.replicate 37 0) 37 _ (by rfl)⟩

end M3

namespace M3

/-- Helper: ORing a mask in sets every masked bit. -/
theorem lor_and_self (x m : Nat) : (x ||| m) &&& m = m :=
  Nat.eq_of_testBit_eq fun i => by
    simp only [Nat.testBit_and, Nat.testBit_or]
    cases x.testBit i <;> cases m.testBit i <;> rfl

/-- Helper: ORing the same mask twice equals ORing it once. -/
theorem lor_lor_self (x m : Nat) : (x ||| m) ||| m = x ||| m :=
  Nat.eq_of_testBit_eq fun i => by
    simp only [Nat.testBit_or]
    cases x.testBit i <;> cases m.testBit i <;> rfl

/-- Helper: XORing a fully-set mask out clears every masked bit. -/
theorem xor_and_self_of_and_eq (x m : Nat) (h : x &&& m = m) :
    (x ^^^ m) &&& m = 0 := by
  apply Nat.eq_of_testBit_eq
  intro i
  have hi := congrArg (fun t => t.testBit i) h
  simp only [Nat.testBit_and] at hi
  simp only [Nat.testBit_and, Nat.testBit_xor, Nat.zero_testBit]
  cases hx : x.testBit i <;> cases hm2 : m.testBit i <;> simp [hx, hm2] at hi ⊢

/-- C8: Tag endianness.  Writing the 4-character tags MD34 and `U8__`
reverses the bytes, the 3-character tag DIV is reversed and NUL-terminated;
reading is symmetric: byte 3 equal to zero yields the 3-character string of
bytes 2,1,0 and otherwise the 4-character string of bytes 3,2,1,0. -/
theorem tagField_endianness :
    tagFieldWrite "MD34" = some [0x34, 0x33, 0x44, 0x4D] ∧
    tagFieldWrite "U8__" = some [0x5F, 0x5F, 0x38, 0x55] ∧
    tagFieldWrite "DIV" = some [0x56, 0x49, 0x44, 0x00] ∧
    tagFieldRead [0x34, 0x33, 0x44, 0x4D] = some "MD34" ∧
    tagFieldRead [0x5F, 0x5F, 0x38, 0x55] = some "U8__" ∧
    tagFieldRead [0x56, 0x49, 0x44, 0x00] = some "DIV" ∧
    (∀ b0 b1 b2 b3 : Nat, tagFieldRead [b0, b1, b2, b3] =
      some (if b3 = 0 then String.mk [Char.ofNat b2, Char.ofNat b1, Char.ofNat b0]
            else String.mk [Char.ofNat b3, Char.ofNat b2, Char.ofNat b1, Char.ofNat b0])) := by
  refine ⟨by decide, by decide, by decide, by decide, by decide, by decide, ?_⟩
  intro b0 b1 b2 b3
  by_cases h : b3 = 0 <;> simp [tagFieldRead, h]

/-- C5 counterexample: the code decodes byte 0xFF to exactly +1.0, which is
not the value 254/255·2−1 ≈ +0.9922 named by the claim. -/
theorem fixed8Decode_255_counterexample :
    fixed8Decode 0xFF = 1 ∧ ((254 : ℚ) / 255 * 2 - 1) = 253 / 255 ∧
    ((253 : ℚ) / 255) ≠ 1 := by
  refine ⟨?_, by norm_num, by norm_num⟩
  norm_num [fixed8Decode]

/-- C5 (amended): decode of byte 0x00 gives −1, decode of byte 0x80 gives
1/255 ≈ +0.0039, decode of byte 0xFF gives exactly +1, the value
254/255·2−1 ≈ +0.9922 is the decode of byte 0xFE; encode of −1 gives 0x00
and encode of +1 gives 0xFF. -/
theorem fixed8_boundary :
    fixed8Decode 0x00 = -1 ∧
    fixed8Decode 0x80 = 1 / 255 ∧
    |fixed8Decode 0x80 - 39 / 10000| < 1 / 10000 ∧
    fixed8Decode 0xFF = 1 ∧
    fixed8Decode 0xFE = (254 : ℚ) / 255 * 2 - 1 ∧
    |fixed8Decode 0xFE - 9922 / 10000| < 1 / 10000 ∧
    fixed8Encode (-1) = 0x00 ∧
    fixed8Encode 1 = 0xFF := by
  refine ⟨?_, ?_, ?_, ?_, ?_, ?_, ?_, ?_⟩ <;>
    norm_num [fixed8Decode, fixed8Encode, pythonRound, abs_lt]

/-- C6 counterexample: with the two-bit mask 0b11 and field value 0b01,
clearing the named bit twice does not equal clearing it once (the values
after one and two applications are 2 and 1); and with the mask 0x0 the
named bit reads back false directly after being set to true. -/
theorem setNamedBit_laws_counterexample :
    (((setNamedBit ⟨"flags", [("b", 3)]⟩ ⟨fun _ => 1⟩ "b" false).bind
        fun o1 => (setNamedBit ⟨"flags", [("b", 3)]⟩ o1 "b" false).map
          fun o2 => (o1.fieldValues "flags", o2.fieldValues "flags"))
      = some (2, 1)) ∧
    ((setNamedBit ⟨"flags", [("z", 0)]⟩ ⟨fun _ => 0⟩ "z" true).bind
        (fun o1 => getNamedBit ⟨"flags", [("z", 0)]⟩ o1 "z") = some false) := by
  constructor <;> rfl

/-- Helper: value of `getNamedBit` once the bit name has been looked up. -/
theorem getNamedBit_eq (field : IntFieldModel) (owner : BitOwner)
    (bitName : String) (mask : Nat)
    (hm : field.bitMaskMap.lookup bitName = some mask) :
    getNamedBit field owner bitName
      = some (decide (owner.fieldValues field.fieldName &&& mask ≠ 0)) := by
  unfold getNamedBit
  rw [hm]
  rfl

/-- Helper: value of `setNamedBit` with `value = True`. -/
theorem setNamedBit_true_eq (field : IntFieldModel) (owner : BitOwner)
    (bitName : String) (mask : Nat)
    (hm : field.bitMaskMap.lookup bitName = some mask) :
    setNamedBit field owner bitName true
      = some ⟨fun n => if n = field.fieldName
          then owner.fieldValues field.fieldName ||| mask
          else owner.fieldValues n⟩ := by
  unfold setNamedBit
  rw [hm]
  rfl

/-- Helper: value of `setNamedBit` with `value = False` when some masked bit
is set: the mask is XORed out. -/
theorem setNamedBit_false_clear (field : IntFieldModel) (owner : BitOwner)
    (bitName : String) (mask : Nat)
    (hm : field.bitMaskMap.lookup bitName = some mask)
    (hz : owner.fieldValues field.fieldName &&& mask ≠ 0) :
    setNamedBit field owner bitName false
      = some ⟨fun n => if n = field.fieldName
          then owner.fieldValues field.fieldName ^^^ mask
          else owner.fieldValues n⟩ := by
  unfold setNamedBit
  rw [hm]
  simp only [Option.map_some']
  rw [if_neg (by simp), if_pos hz]

/-- Helper: value of `setNamedBit` with `value = False` when no masked bit
is set: the owner is left untouched. -/
theorem setNamedBit_false_skip (field : IntFieldModel) (owner : BitOwner)
    (bitName : String) (mask : Nat)
    (hm : field.bitMaskMap.lookup bitName = some mask)
    (hz : owner.fieldValues field.fieldName &&& mask = 0) :
    setNamedBit field owner bitName false = some owner := by
  unfold setNamedBit
  rw [hm]
  simp only [Option.map_some']
  rw [if_neg (by simp), if_neg (not_not_intro hz)]

/-- C6 (amended): for a named bit with a nonzero mask, getNamedBit after
setNamedBit-to-true returns true; and setNamedBit applied twice leaves the
field with the same value as applying it once provided the field's bits
under the mask are currently all set or all clear (with a multi-bit mask
whose bits are only partially set, a second clear undoes the first). -/
theorem setNamedBit_laws (field : IntFieldModel) (owner : BitOwner)
    (bitName : String) (mask : Nat) (v : Bool)
    (hm : field.bitMaskMap.lookup bitName = some mask) :
    (mask ≠ 0 →
      ((setNamedBit field owner bitName true).bind
        fun o1 => getNamedBit field o1 bitName) = some true) ∧
    (owner.fieldValues field.fieldName &&& mask = 0 ∨
        owner.fieldValues field.fieldName &&& mask = mask →
      ∀ o1, setNamedBit field owner bitName v = some o1 →
        ∃ o2, setNamedBit field o1 bitName v = some o2 ∧
          o2.fieldValues field.fieldName = o1.fieldValues field.fieldName) := by
  constructor
  · intro hmask
    rw [setNamedBit_true_eq field owner bitName mask hm]
    show getNamedBit field _ bitName = some true
    rw [getNamedBit_eq field _ bitName mask hm]
    simp only [Option.some.injEq, decide_eq_true_eq, eq_self_iff_true, if_true,
      lor_and_self]
    exact hmask
  · intro hcond o1 h1
    cases v with
    | true =>
      rw [setNamedBit_true_eq field owner bitName mask hm, Option.some.injEq] at h1
      subst h1
      refine ⟨_, setNamedBit_true_eq field _ bitName mask hm, ?_⟩
      simp only [eq_self_iff_true, if_true, lor_lor_self]
    | false =>
      by_cases hz : owner.fieldValues field.fieldName &&& mask = 0
      · rw [setNamedBit_false_skip field owner bitName mask hm hz,
          Option.some.injEq] at h1
        subst h1
        exact ⟨owner, setNamedBit_false_skip field owner bitName mask hm hz, rfl⟩
      · have hc : owner.fieldValues field.fieldName &&& mask = mask := by
          rcases hcond with h | h
          · exact absurd h hz
          · exact h
        rw [setNamedBit_false_clear field owner bitName mask hm hz,
          Option.some.injEq] at h1
        subst h1
        have h2 := xor_and_self_of_and_eq (owner.fieldValues field.fieldName) mask hc
        refine ⟨_, setNamedBit_false_skip field _ bitName mask hm ?_, rfl⟩
        simpa only [eq_self_iff_true, if_true] using h2

/-- Witness for C6: with mask 0x2 and field value 0, the get-after-set law
and the clear idempotence both hold. -/
theorem setNamedBit_laws_witness :
    (((setNamedBit ⟨"flags", [("b", 2)]⟩ ⟨fun _ => 0⟩ "b" true).bind
      fun o1 => getNamedBit ⟨"flags", [("b", 2)]⟩ o1 "b") = some true) ∧
    (∀ o1, setNamedBit ⟨"flags", [("b", 2)]⟩ ⟨fun _ => 0⟩ "b" false = some o1 →
      ∃ o2, setNamedBit ⟨"flags", [("b", 2)]⟩ o1 "b" false = some o2 ∧
        o2.fieldValues "flags" = o1.fieldValues "flags") :=
  ⟨(setNamedBit_laws ⟨"flags", [("b", 2)]⟩ ⟨fun _ => 0⟩ "b" 2 false rfl).1 (by decide),
   (setNamedBit_laws ⟨"flags", [("b", 2)]⟩ ⟨fun _ => 0⟩ "b" 2 false rfl).2
     (Or.inl (by decide))⟩

/-- C9: setNamedBit only changes bits of its own field that lie under the
named bit's mask: every bit of the field outside the mask keeps its value
and every other field of the owner is unchanged. -/
theorem setNamedBit_frame (field : IntFieldModel) (owner : BitOwner)
    (bitName : String) (mask : Nat) (v : Bool) (o1 : BitOwner)
    (hm : field.bitMaskMap.lookup bitName = some mask)
    (hs : setNamedBit field owner bitName v = some o1) :
    (∀ i, mask.testBit i = false →
      (o1.fieldValues field.fieldName).testBit i
        = (owner.fieldValues field.fieldName).testBit i) ∧
    (∀ n, n ≠ field.fieldName → o1.fieldValues n = owner.fieldValues n) := by
  cases v with
  | true =>
    rw [setNamedBit_true_eq field owner bitName mask hm, Option.some.injEq] at hs
    subst hs
    constructor
    · intro i hi
      simp only [eq_self_iff_true, if_true, Nat.testBit_or, hi, Bool.or_false]
    · intro n hn
      simp only [if_neg hn]
  | false =>
    by_cases hz : owner.fieldValues field.fieldName &&& mask = 0
    · rw [setNamedBit_false_skip field owner bitName mask hm hz,
        Option.some.injEq] at hs
      subst hs
      exact ⟨fun i _ => rfl, fun n _ => rfl⟩
    · rw [setNamedBit_false_clear field owner bitName mask hm hz,
        Option.some.injEq] at hs
      subst hs
      constructor
      · intro i hi
        simp only [eq_self_iff_true, if_true, Nat.testBit_xor, hi, Bool.xor_false]
      · intro n hn
        simp only [if_neg hn]

/-- Witness for C9: setting bit 0x2 on a field holding 1 leaves bit 0 and
all bits above bit 1 unchanged, and leaves every other field unchanged. -/
theorem setNamedBit_frame_witness :
    ∃ o1, setNamedBit ⟨"flags", [("b", 2)]⟩ ⟨fun _ => 1⟩ "b" true = some o1 ∧
      ((∀ i, (2 : Nat).testBit i = false →
          (o1.fieldValues "flags").testBit i
            = ((⟨fun _ => 1⟩ : BitOwner).fieldValues "flags").testBit i) ∧
       (∀ n, n ≠ "flags" → o1.fieldValues n
            = (⟨fun _ => 1⟩ : BitOwner).fieldValues n)) :=
  ⟨_, rfl, setNamedBit_frame ⟨"flags", [("b", 2)]⟩ ⟨fun _ => 1⟩ "b" 2 true _ rfl rfl⟩

end M3

namespace M3

/-- C1: For a reference field with a refTo structure history (giving the
expected tag name), a reference record with entries > 0 whose index is a
valid section index: resolution raises an error when the referent's
repetitions are fewer than the entries or its tag differs from the
expected name; otherwise it succeeds, the owner's field value becomes the
referent section's content, and exactly that section's timesReferenced is
incremented by one. -/
theorem resolveIndexReferences_spec (expectedTagName : String) (ref : Reference)
    (sections : List LoadSection) (s : LoadSection)
    (hentries : ref.entries ≠ 0) (hidx : sections[ref.index]? = some s) :
    (s.indexEntry.repetitions < ref.entries ∨ s.indexEntry.tag ≠ expectedTagName →
      ∃ e, resolveIndexReferences (some expectedTagName) ref sections
        = Except.error e) ∧
    (ref.entries ≤ s.indexEntry.repetitions → s.indexEntry.tag = expectedTagName →
      resolveIndexReferences (some expectedTagName) ref sections
        = Except.ok (s.content,
            sections.set ref.index
              { s with timesReferenced := s.timesReferenced + 1 })) := by
  constructor
  · intro hbad
    simp only [resolveIndexReferences, if_neg hentries, hidx]
    rcases hbad with h | h
    · rw [if_pos h]
      exact ⟨_, rfl⟩
    · by_cases hrep : s.indexEntry.repetitions < ref.entries
      · rw [if_pos hrep]
        exact ⟨_, rfl⟩
      · rw [if_neg hrep]
        simp only [ne_eq, h, not_false_eq_true, if_true]
        exact ⟨_, rfl⟩
  · intro h1 h2
    simp only [resolveIndexReferences, if_neg hentries, hidx]
    rw [if_neg (by omega)]
    simp only [ne_eq, h2, not_true_eq_false, if_false]

/-- Witness for C1: a 1-entry reference into a 2-repetition section of the
expected tag resolves to the section's content and bumps timesReferenced
from 0 to 1. -/
theorem resolveIndexReferences_spec_witness :
    resolveIndexReferences (some "FOO!") ⟨1, 0, 0⟩
        [⟨⟨"FOO!", 0, 2, 0⟩, PyValue.pyList [5], 0⟩]
      = Except.ok (PyValue.pyList [5], [⟨⟨"FOO!", 0, 2, 0⟩, PyValue.pyList [5], 1⟩]) :=
  (resolveIndexReferences_spec "FOO!" ⟨1, 0, 0⟩ _
    ⟨⟨"FOO!", 0, 2, 0⟩, PyValue.pyList [5], 0⟩
    (by decide) rfl).2 (by decide) rfl

/-- C7 counterexample: for a CHAR reference, the default value and the
entries = 0 resolution result are Python's None (`createEmptyArray` for
CHAR returns None, "even no terminating character"), which is not the
empty string named by the claim. -/
theorem charReference_default_counterexample :
    referenceSetToDefault (some "CHAR") = PyValue.pyNone ∧
    resolveIndexReferences (some "CHAR") ⟨0, 0, 0⟩ []
      = Except.ok (PyValue.pyNone, []) ∧
    PyValue.pyNone ≠ PyValue.pyStr "" :=
  ⟨rfl, rfl, by decide⟩

/-- C7 (amended): for a reference field whose referent kind is CHAR,
setToDefault sets the owner's field to None — not the empty string — and
resolving a reference record with entries = 0 likewise replaces the
owner's field with None without reading or modifying any section. -/
theorem charReference_empty (ref : Reference) (sections : List LoadSection)
    (h : ref.entries = 0) :
    referenceSetToDefault (some "CHAR") = PyValue.pyNone ∧
    resolveIndexReferences (some "CHAR") ref sections
      = Except.ok (PyValue.pyNone, sections) := by
  refine ⟨rfl, ?_⟩
  unfold resolveIndexReferences
  rw [if_pos h]
  rfl

/-- Witness for C7: a zero-entry CHAR reference resolves to None and the
(nonempty) section list comes back unchanged. -/
theorem charReference_empty_witness :
    referenceSetToDefault (some "CHAR") = PyValue.pyNone ∧
    resolveIndexReferences (some "CHAR") ⟨0, 3, 7⟩
        [⟨⟨"AAAA", 0, 1, 0⟩, PyValue.pyList [], 0⟩]
      = Except.ok (PyValue.pyNone, [⟨⟨"AAAA", 0, 1, 0⟩, PyValue.pyList [], 0⟩]) :=
  charReference_empty ⟨0, 3, 7⟩ _ rfl

/-- C4: For a structure version with a declared size (not yet memoised),
getVersion succeeds if and only if the sizes of the fields whose version
range includes that version sum to the declared size; a mismatch
propagates the schema construction error, and on success the description's
size equals the declared size. -/
theorem getVersion_size_validation (history : M3StructureHistoryModel)
    (version declaredSize : Nat)
    (hdecl : history.versionToSizeMap.lookup version = some declaredSize)
    (hcache : history.versionToStructureDescriptionMap.lookup version = none) :
    ((((history.allFields.filter (includeField version)).map (fun f => f.size)).sum
        = declaredSize) →
      ∃ h2, getVersion history version
          = Except.ok (some ⟨history.name, version,
              history.allFields.filter (includeField version), declaredSize⟩, h2)) ∧
    ((((history.allFields.filter (includeField version)).map (fun f => f.size)).sum
        ≠ declaredSize) →
      ∃ e, getVersion history version = Except.error e) ∧
    (∀ d h2, getVersion history version = Except.ok (some d, h2) →
      d.size = declaredSize) := by
  have hred : getVersion history version
      = match mkM3StructureDescription history.name version
          (history.allFields.filter (includeField version)) declaredSize with
        | Except.error e => Except.error e
        | Except.ok d =>
          Except.ok (some d,
            { history with versionToStructureDescriptionMap :=
                (version, d) :: history.versionToStructureDescriptionMap }) := by
    simp only [getVersion, hcache, hdecl]
  by_cases hsum : ((history.allFields.filter (includeField version)).map
      (fun f => f.size)).sum = declaredSize
  · have hmk : mkM3StructureDescription history.name version
        (history.allFields.filter (includeField version)) declaredSize
        = Except.ok ⟨history.name, version,
            history.allFields.filter (includeField version), declaredSize⟩ := by
      unfold mkM3StructureDescription
      rw [if_neg (not_not_intro hsum)]
    refine ⟨fun _ => ⟨_, by rw [hred, hmk]⟩, fun hne => absurd hsum hne, ?_⟩
    intro d h2 hok
    rw [hred, hmk] at hok
    simp only [Except.ok.injEq, Prod.mk.injEq, Option.some.injEq] at hok
    rw [← hok.1]
  · have hmk : mkM3StructureDescription history.name version
        (history.allFields.filter (includeField version)) declaredSize
        = Except.error "Size mismatch" := by
      unfold mkM3StructureDescription
      rw [if_pos hsum]
    refine ⟨fun hs => absurd hs hsum, fun _ => ⟨_, by rw [hred, hmk]⟩, ?_⟩
    intro d h2 hok
    rw [hred, hmk] at hok
    exact absurd hok (by simp)

/-- Witness for C4: a structure with two 4-byte fields and declared size 8
yields a description of size 8. -/
theorem getVersion_size_validation_witness :
    ∃ h2, getVersion ⟨"ABCD", [(0, 8)],
        [⟨"a", 4, none, none⟩, ⟨"b", 4, none, none⟩], []⟩ 0
      = Except.ok (some ⟨"ABCD", 0,
          [⟨"a", 4, none, none⟩, ⟨"b", 4, none, none⟩], 8⟩, h2) :=
  (getVersion_size_validation
    ⟨"ABCD", [(0, 8)], [⟨"a", 4, none, none⟩, ⟨"b", 4, none, none⟩], []⟩
    0 8 rfl rfl).1 (by decide)

/-- Helper: a successful association-list lookup locates a member pair. -/
theorem lookup_mem {β : Type} (k : Nat) (b : β) :
    ∀ l : List (Nat × β), l.lookup k = some b → (k, b) ∈ l := by
  intro l
  induction l with
  | nil => intro h; simp at h
  | cons p t ih =>
    intro h
    obtain ⟨k2, b2⟩ := p
    rw [List.lookup_cons] at h
    by_cases hk : k = k2
    · subst hk
      simp only [beq_self_eq_true, Option.some.injEq] at h
      subst h
      exact List.mem_cons_self _ _
    · have hbeq : (k == k2) = false := beq_false_of_ne hk
      rw [hbeq] at h
      exact List.mem_cons_of_mem _ (ih h)

/-- C10: For every version number absent from the version-to-size map of a
structure history (whose memoisation cache only holds versions that are in
that map, as is the case for every history the codec builds), getVersion
returns None without error, and the history — including its cache — is
returned unchanged: no structure description is constructed or cached. -/
theorem getVersion_absent (history : M3StructureHistoryModel) (version : Nat)
    (hinv : ∀ v d, (v, d) ∈ history.versionToStructureDescriptionMap →
      history.versionToSizeMap.lookup v ≠ none)
    (habsent : history.versionToSizeMap.lookup version = none) :
    getVersion history version = Except.ok (none, history) := by
  have hcache : history.versionToStructureDescriptionMap.lookup version = none := by
    cases hc : history.versionToStructureDescriptionMap.lookup version with
    | none => rfl
    | some d => exact absurd habsent (hinv version d (lookup_mem version d _ hc))
  simp only [getVersion, hcache, habsent]

/-- Witness for C10: a history with a single declared version 0 returns
None for the undeclared version 5 and is left unchanged. -/
theorem getVersion_absent_witness :
    getVersion ⟨"ABCD", [(0, 4)], [⟨"a", 4, none, none⟩],
        [(0, ⟨"ABCD", 0, [⟨"a", 4, none, none⟩], 4⟩)]⟩ 5
      = Except.ok (none, ⟨"ABCD", [(0, 4)], [⟨"a", 4, none, none⟩],
          [(0, ⟨"ABCD", 0, [⟨"a", 4, none, none⟩], 4⟩)]⟩) :=
  getVersion_absent
    ⟨"ABCD", [(0, 4)], [⟨"a", 4, none, none⟩],
      [(0, ⟨"ABCD", 0, [⟨"a", 4, none, none⟩], 4⟩)]⟩ 5
    (by intro v d hmem
        simp only [List.mem_singleton] at hmem
        rw [(Prod.mk.injEq _ _ _ _).mp hmem |>.1]
        simp)
    rfl

end M3

namespace M3

/-- Helper: a request for an object that is already memoised returns the
stored index reference and leaves the maker unchanged (m3.py lines
1199-1200). -/
theorem getIndexReferenceTo_memo (maker : IndexMaker) (objId : Nat)
    (objData : List Nat) (sd : Option M3StructureDescriptionModel)
    (r : Reference)
    (hhit : maker.objectsIdToIndexReferenceMap.lookup objId = some r) :
    getIndexReferenceTo maker objId objData sd = (r, maker) := by
  simp only [getIndexReferenceTo, hhit]

/-- Helper: a first request for a non-empty list object allocates one new
section for it, memoises the reference and advances offset and index. -/
theorem getIndexReferenceTo_new (maker : IndexMaker) (objId : Nat)
    (objData : List Nat) (d : M3StructureDescriptionModel)
    (hnew : maker.objectsIdToIndexReferenceMap.lookup objId = none)
    (hne : objData ≠ []) :
    getIndexReferenceTo maker objId objData (some d)
      = (⟨objData.length, maker.nextFreeIndexPosition, 0⟩,
         { objectsIdToIndexReferenceMap :=
             (objId, ⟨objData.length, maker.nextFreeIndexPosition, 0⟩)
               :: maker.objectsIdToIndexReferenceMap,
           offset := maker.offset
             + increaseToValidSectionSize (d.size * objData.length),
           nextFreeIndexPosition := maker.nextFreeIndexPosition + 1,
           sections := maker.sections
             ++ [⟨⟨d.structureName, maker.offset, objData.length,
                   d.structureVersion⟩, objId, objData, d⟩] }) := by
  simp only [getIndexReferenceTo, hnew]
  rw [if_pos (List.length_pos.mpr hne)]

/-- C2: During save, two requests for the same list object return the
identical Reference record — same (entries, index) — and exactly one
section is appended for that object; requests for two distinct list
objects, even with element-wise equal non-empty data, append two distinct
sections and return references with distinct indices. -/
theorem getIndexReferenceTo_identity (maker : IndexMaker) (id1 id2 : Nat)
    (data1 data2 : List Nat) (d : M3StructureDescriptionModel)
    (h1 : maker.objectsIdToIndexReferenceMap.lookup id1 = none)
    (h2 : maker.objectsIdToIndexReferenceMap.lookup id2 = none)
    (hne : id1 ≠ id2) (hd1 : data1 ≠ []) (hd2 : data2 ≠ []) :
    ∃ r1 m1, getIndexReferenceTo maker id1 data1 (some d) = (r1, m1) ∧
      getIndexReferenceTo m1 id1 data1 (some d) = (r1, m1) ∧
      r1.entries = data1.length ∧ r1.index = maker.nextFreeIndexPosition ∧
      m1.sections.length = maker.sections.length + 1 ∧
      (∃ s1, m1.sections = maker.sections ++ [s1] ∧ s1.contentId = id1) ∧
      ∀ r2 m2, getIndexReferenceTo m1 id2 data2 (some d) = (r2, m2) →
        r2.entries = data2.length ∧ r2.index = maker.nextFreeIndexPosition + 1 ∧
        r1.index ≠ r2.index ∧
        m2.sections.length = maker.sections.length + 2 ∧
        (∃ s2, m2.sections = m1.sections ++ [s2] ∧ s2.contentId = id2) := by
  rw [getIndexReferenceTo_new maker id1 data1 d h1 hd1]
  refine ⟨_, _, rfl, ?_, rfl, rfl, by simp, ⟨_, rfl, rfl⟩, ?_⟩
  · exact getIndexReferenceTo_memo _ id1 data1 (some d) _ List.lookup_cons_self
  · intro r2 m2 hcall
    have hlook2 : ((id1, (⟨data1.length, maker.nextFreeIndexPosition, 0⟩ : Reference))
        :: maker.objectsIdToIndexReferenceMap).lookup id2 = none := by
      rw [List.lookup_cons]
      rw [beq_false_of_ne (fun hc => hne hc.symm)]
      exact h2
    rw [getIndexReferenceTo_new _ id2 data2 d hlook2 hd2] at hcall
    simp only [Prod.mk.injEq] at hcall
    obtain ⟨hr2, hm2⟩ := hcall
    subst hr2
    subst hm2
    refine ⟨rfl, rfl, by simp, by simp, ⟨_, rfl, rfl⟩⟩

/-- Witness for C2: starting from an empty index maker, the list object
with identity 10 and the distinct object with identity 11 holding the same
elements get sections 0 and 1 respectively; requesting object 10 twice
returns the same reference and allocates only one section. -/
theorem getIndexReferenceTo_identity_witness :
    ∃ r1 m1, getIndexReferenceTo ⟨[], 0, 0, []⟩ 10 [1, 2]
        (some ⟨"ABCD", 0, [⟨"a", 4, none, none⟩, ⟨"b", 4, none, none⟩], 8⟩)
        = (r1, m1) ∧
      getIndexReferenceTo m1 10 [1, 2]
        (some ⟨"ABCD", 0, [⟨"a", 4, none, none⟩, ⟨"b", 4, none, none⟩], 8⟩)
        = (r1, m1) ∧
      r1.entries = 2 ∧ r1.index = 0 ∧
      m1.sections.length = 0 + 1 ∧
      (∃ s1, m1.sections = [] ++ [s1] ∧ s1.contentId = 10) ∧
      ∀ r2 m2, getIndexReferenceTo m1 11 [1, 2]
          (some ⟨"ABCD", 0, [⟨"a", 4, none, none⟩, ⟨"b", 4, none, none⟩], 8⟩)
          = (r2, m2) →
        r2.entries = 2 ∧ r2.index = 0 + 1 ∧ r1.index ≠ r2.index ∧
        m2.sections.length = 0 + 2 ∧
        (∃ s2, m2.sections = m1.sections ++ [s2] ∧ s2.contentId = 11) :=
  getIndexReferenceTo_identity ⟨[], 0, 0, []⟩ 10 11 [1, 2] [1, 2]
    ⟨"ABCD", 0, [⟨"a", 4, none, none⟩, ⟨"b", 4, none, none⟩], 8⟩
    rfl rfl (by decide) (by decide) (by decide)

end M3
